import Mathlib

/-!
Verification development for the NEO close-approach query/filter engine
(`filters.py`, with the `query` collaborator and the record model described
by the specification).

The embedding is shallow:
* `PyDate`, `Datetime`, `PyFloat` model the Python `date`, `datetime` and
  `float` values that filters compare (only comparisons occur in the code,
  never arithmetic, so rationals plus an explicit NaN sentinel capture the
  IEEE comparison behaviour exactly);
* `AttributeFilter` carries a comparator kind, a reference value and the
  attribute-selection strategy (the Python subclass); evaluation returns
  `Except PyError Bool`, with `PyError.unsupportedCriterion` modelling
  `UnsupportedCriterionError` raised by the abstract base `get`;
* `create_filters` mirrors the builder in `filters.py` line by line;
* the `limit` generator is modelled operationally: `limitNext` performs one
  consumer request (`next()`), tracking how many items have been pulled from
  the source, and `limitRun` iterates it for a given consumer demand.
  Sources are `Nat → Option α`, which covers both finite lists (`sOf`) and
  infinite streams.
-/

set_option autoImplicit false

/-- A calendar date, as Python's `datetime.date`: a year/month/day triple
compared lexicographically. -/
structure PyDate where
  year : Int
  month : Int
  day : Int
deriving DecidableEq

/-- Python's `date` ordering is lexicographic on (year, month, day). -/
def PyDate.le (a b : PyDate) : Bool :=
  decide (a.year < b.year ∨ (a.year = b.year ∧
    (a.month < b.month ∨ (a.month = b.month ∧ a.day ≤ b.day))))

/-- A timestamp, as Python's `datetime`: a calendar date plus a time-of-day
component. `CloseApproach.time` holds one; `DateFilter.get` keeps only the
date portion (`approach.time.date()`). -/
structure Datetime where
  date : PyDate
  timeOfDay : Nat
deriving DecidableEq

/-- A Python float as the filters observe it: either a numeric value or the
NaN sentinel. The code only ever compares floats (never computes with them),
and every comparison against NaN is false in IEEE semantics, including
equality. -/
inductive PyFloat where
  | num (q : ℚ)
  | nan
deriving DecidableEq

/-- IEEE equality: NaN is equal to nothing, including itself. -/
def PyFloat.beq : PyFloat → PyFloat → Bool
  | .num a, .num b => decide (a = b)
  | _, _ => false

/-- IEEE `<=`: false whenever NaN is involved. -/
def PyFloat.ble : PyFloat → PyFloat → Bool
  | .num a, .num b => decide (a ≤ b)
  | _, _ => false

/-- A near-Earth object as the filters and writers observe it (the record
class itself lives outside this core). Modelled from the spec: identity is
the designation; optional name; diameter possibly unknown (the NaN
sentinel); a boolean hazardous flag. -/
structure NearEarthObject where
  designation : String
  name : Option String
  diameter : PyFloat
  hazardous : Bool
deriving DecidableEq

/-- A close-approach record as the filters observe it. Modelled from the
spec: timestamp, nominal distance (au), relative velocity (km/s), and a
resolved reference to the associated NEO. -/
structure CloseApproach where
  designation : String
  time : Datetime
  distance : PyFloat
  velocity : PyFloat
  neo : NearEarthObject
deriving DecidableEq

/-- The errors filter evaluation can raise: `UnsupportedCriterionError` from
the abstract base `get`, and a host-language `TypeError` from applying an
ordering operator to incomparable values (never produced by the builder). -/
inductive PyError where
  | unsupportedCriterion
  | typeError
deriving DecidableEq

/-- The comparator passed to `AttributeFilter.__init__`: `operator.eq`,
`operator.ge` or `operator.le` (the only ones `create_filters` uses). -/
inductive CmpOp where
  | eq
  | ge
  | le
deriving DecidableEq

/-- A reference value or an extracted attribute: the three value shapes the
five concrete filters compare (dates, floats, booleans). -/
inductive AttrValue where
  | vDate (d : PyDate)
  | vFloat (x : PyFloat)
  | vBool (b : Bool)
deriving DecidableEq

/-- Python `bool` ordering (`False < True`, booleans being integers). -/
def boolLe (a b : Bool) : Bool := !a || b

/-- Apply a comparator to an extracted attribute (left) and the reference
value (right), as `self.op(self.get(approach), self.value)` does.
Equality between values of different shapes is `False` in Python; ordering
between different shapes raises `TypeError`. Neither mixed case is ever
produced by `create_filters`. -/
def applyOp : CmpOp → AttrValue → AttrValue → Except PyError Bool
  | .eq, .vDate a, .vDate b => .ok (decide (a = b))
  | .eq, .vFloat a, .vFloat b => .ok (a.beq b)
  | .eq, .vBool a, .vBool b => .ok (a == b)
  | .eq, _, _ => .ok false
  | .ge, .vDate a, .vDate b => .ok (PyDate.le b a)
  | .ge, .vFloat a, .vFloat b => .ok (PyFloat.ble b a)
  | .ge, .vBool a, .vBool b => .ok (boolLe b a)
  | .ge, _, _ => .error .typeError
  | .le, .vDate a, .vDate b => .ok (PyDate.le a b)
  | .le, .vFloat a, .vFloat b => .ok (PyFloat.ble a b)
  | .le, .vBool a, .vBool b => .ok (boolLe a b)
  | .le, _, _ => .error .typeError

/-- The attribute-selection strategy: which `get` classmethod the filter
carries. `base` is the abstract superclass `AttributeFilter` itself. -/
inductive FilterKind where
  | base
  | date
  | distance
  | velocity
  | diameter
  | hazardous
deriving DecidableEq

/-- The `get` classmethods. The base one raises `UnsupportedCriterionError`;
each subclass extracts its attribute of interest:
`DateFilter` takes `approach.time.date()`, `DistanceFilter` takes
`approach.distance`, `VelocityFilter` takes `approach.velocity`,
`DiameterFilter` takes `approach.neo.diameter`, `HazardousFilter` takes
`approach.neo.hazardous`. -/
def FilterKind.get : FilterKind → CloseApproach → Except PyError AttrValue
  | .base, _ => .error .unsupportedCriterion
  | .date, a => .ok (.vDate a.time.date)
  | .distance, a => .ok (.vFloat a.distance)
  | .velocity, a => .ok (.vFloat a.velocity)
  | .diameter, a => .ok (.vFloat a.neo.diameter)
  | .hazardous, a => .ok (.vBool a.neo.hazardous)

/-- An `AttributeFilter` instance: its class (selection strategy), its
comparator and its reference value. -/
structure AttributeFilter where
  kind : FilterKind
  op : CmpOp
  value : AttrValue
deriving DecidableEq

/-- `AttributeFilter.__call__`: `self.op(self.get(approach), self.value)`.
An exception from `get` propagates. -/
def callFilter (f : AttributeFilter) (a : CloseApproach) : Except PyError Bool :=
  match f.kind.get a with
  | .error e => .error e
  | .ok v => applyOp f.op v f.value

/-- `DateFilter(op, value)`. -/
def DateFilter (op : CmpOp) (value : PyDate) : AttributeFilter :=
  ⟨.date, op, .vDate value⟩

/-- `DistanceFilter(op, value)`. -/
def DistanceFilter (op : CmpOp) (value : PyFloat) : AttributeFilter :=
  ⟨.distance, op, .vFloat value⟩

/-- `VelocityFilter(op, value)`. -/
def VelocityFilter (op : CmpOp) (value : PyFloat) : AttributeFilter :=
  ⟨.velocity, op, .vFloat value⟩

/-- `DiameterFilter(op, value)`. -/
def DiameterFilter (op : CmpOp) (value : PyFloat) : AttributeFilter :=
  ⟨.diameter, op, .vFloat value⟩

/-- `HazardousFilter(op, value)`. -/
def HazardousFilter (op : CmpOp) (value : Bool) : AttributeFilter :=
  ⟨.hazardous, op, .vBool value⟩

/-- `if x is not None: command_filters.append(mk(x))` contributes one filter
when the criterion is present and none when it is absent. -/
def optToList {β : Type} (o : Option β) (mk : β → AttributeFilter) : List AttributeFilter :=
  match o with
  | none => []
  | some v => [mk v]

/-- `create_filters`, mirroring the ten append statements in order. -/
def create_filters (date start_date end_date : Option PyDate)
    (distance_min distance_max velocity_min velocity_max
      diameter_min diameter_max : Option PyFloat)
    (hazardous : Option Bool) : List AttributeFilter :=
  optToList date (DateFilter .eq) ++
  optToList start_date (DateFilter .ge) ++
  optToList end_date (DateFilter .le) ++
  optToList distance_min (DistanceFilter .ge) ++
  optToList distance_max (DistanceFilter .le) ++
  optToList velocity_min (VelocityFilter .ge) ++
  optToList velocity_max (VelocityFilter .le) ++
  optToList diameter_min (DiameterFilter .ge) ++
  optToList diameter_max (DiameterFilter .le) ++
  optToList hazardous (HazardousFilter .eq)

/-- Modelled from the spec: the database collaborator's `query` method
(`NEODatabase.query`, not under the sources provided) produces the stream of
approaches for which all filters evaluate true, in source order, with
Python's `all` short-circuiting at the first false filter and any exception
propagating. -/
def allFilters (fs : List AttributeFilter) (a : CloseApproach) : Except PyError Bool :=
  match fs with
  | [] => .ok true
  | f :: rest =>
    match callFilter f a with
    | .error e => .error e
    | .ok b => if b then allFilters rest a else .ok false

/-- Modelled from the spec: `query(approaches, filters)` yields exactly the
approaches satisfying the conjunction of the filters, preserving source
order, propagating any exception raised by a filter. -/
def query (approaches : List CloseApproach) (fs : List AttributeFilter) :
    Except PyError (List CloseApproach) :=
  match approaches with
  | [] => .ok []
  | a :: rest =>
    match allFilters fs a with
    | .error e => .error e
    | .ok b =>
      match query rest fs with
      | .error e => .error e
      | .ok tail => .ok (if b then a :: tail else tail)

/-!
The `limit` generator, modelled operationally.

A source iterator is `s : Nat → Option α`: `s i` is the item the `(i+1)`-th
`next()` call on the source yields, or `none` for `StopIteration`. Finite
lists embed via `sOf`; an infinite generator is a source with `s i` always
`some`.

`GenSt` is the generator's internal state between consumer requests:
`idx` is both Python's `enumerate` counter and the number of items consumed
from the source so far; `dead` records that the generator has finished.
`limitNext` is one consumer request against `limit(iterator, n)`:

* if `n is None or n == 0`, the body is `yield from iterator`: each request
  pulls one item from the source and re-yields it, finishing when the
  source is exhausted;
* otherwise the body is
  `for i, value in enumerate(iterator): if i >= n: break / yield value`:
  each request pulls the next item first, and only then tests `i >= n` —
  a pull that lands on `i = n` is consumed from the source even though the
  loop breaks without yielding it.
-/

/-- Internal state of the `limit` generator: items consumed from the source
(also the `enumerate` counter) and whether the generator has finished. -/
structure GenSt where
  idx : Nat
  dead : Bool
deriving DecidableEq

/-- The fresh state of a generator before any consumer request. -/
def GenSt.start : GenSt := ⟨0, false⟩

/-- One `next()` against the stream of a list: `sOf xs i` is the item the
`(i+1)`-th pull yields. -/
def sOf {α : Type} (xs : List α) : Nat → Option α :=
  fun i => xs[i]?

/-- One consumer request against a bare iterator (iterating the source `s`
directly, with no `limit` wrapper). -/
def iterNext {α : Type} (s : Nat → Option α) (st : GenSt) : Option α × GenSt :=
  if st.dead then (none, st)
  else
    match s st.idx with
    | none => (none, { st with dead := true })
    | some x => (some x, { st with idx := st.idx + 1 })

/-- One consumer request against `limit(s, n)` (`n : Option Int`; `none`
models Python `None`). -/
def limitNext {α : Type} (s : Nat → Option α) (n : Option Int) (st : GenSt) :
    Option α × GenSt :=
  if st.dead then (none, st)
  else
    match s st.idx with
    | none => (none, { st with dead := true })
    | some x =>
      match n with
      | none => (some x, { st with idx := st.idx + 1 })
      | some k =>
        if k = 0 then (some x, { st with idx := st.idx + 1 })
        else if (st.idx : Int) ≥ k then
          (none, { idx := st.idx + 1, dead := true })
        else (some x, { st with idx := st.idx + 1 })

/-- One consumer request applied to an accumulated run: append the emitted
item (if any) and advance the generator state. -/
def genStep {α : Type} (next : GenSt → Option α × GenSt)
    (acc : List α × GenSt) : List α × GenSt :=
  match next acc.2 with
  | (some x, st') => (acc.1 ++ [x], st')
  | (none, st') => (acc.1, st')

/-- Run a bare iterator for `d` consumer requests, collecting the items
emitted and the final state. -/
def iterRun {α : Type} (s : Nat → Option α) : Nat → List α × GenSt
  | 0 => ([], GenSt.start)
  | d + 1 => genStep (iterNext s) (iterRun s d)

/-- Run `limit(s, n)` for `d` consumer requests, collecting the items
emitted and the final state. `(limitRun s n d).2.idx` is the number of items
the limiter has pulled from the source after `d` requests. -/
def limitRun {α : Type} (s : Nat → Option α) (n : Option Int) : Nat → List α × GenSt
  | 0 => ([], GenSt.start)
  | d + 1 => genStep (limitNext s n) (limitRun s n d)

/-- The boolean a filter contributes when its evaluation succeeds (`false`
if it raised). Under the no-exception hypotheses used below this coincides
with "the predicate evaluates true". -/
def passes (f : AttributeFilter) (a : CloseApproach) : Bool :=
  match callFilter f a with
  | .ok b => b
  | .error _ => false

/-- Concrete hazardous NEO used by witnesses. -/
def neoW1 : NearEarthObject := ⟨"2020 AB", some "Alpha", .num 1, true⟩

/-- Concrete non-hazardous NEO used by witnesses. -/
def neoW2 : NearEarthObject := ⟨"2020 CD", none, .num 3, false⟩

/-- Concrete NEO with unknown diameter used by witnesses. -/
def neoW3 : NearEarthObject := ⟨"2020 EF", none, .nan, false⟩

/-- Concrete close approach (distance 1 au) used by witnesses. -/
def caW1 : CloseApproach := ⟨"2020 AB", ⟨⟨2020, 1, 1⟩, 43200⟩, .num 1, .num 10, neoW1⟩

/-- Concrete close approach (distance 3 au) used by witnesses. -/
def caW2 : CloseApproach := ⟨"2020 CD", ⟨⟨2020, 1, 2⟩, 0⟩, .num 3, .num 20, neoW2⟩

/-- Concrete close approach whose NEO has unknown diameter, used by
witnesses. -/
def caW3 : CloseApproach := ⟨"2020 EF", ⟨⟨2020, 1, 3⟩, 60⟩, .num 2, .num 30, neoW3⟩

section FilterLemmas

lemma passes_iff (f : AttributeFilter) (a : CloseApproach)
    (h : (callFilter f a).isOk = true) :
    passes f a = true ↔ callFilter f a = .ok true := by
  unfold passes
  cases hc : callFilter f a with
  | ok b => cases b <;> simp
  | error e => rw [hc] at h; simp [Except.isOk, Except.toBool] at h

lemma allFilters_eq_ok (fs : List AttributeFilter) (a : CloseApproach)
    (h : ∀ f ∈ fs, (callFilter f a).isOk = true) :
    allFilters fs a = .ok (fs.all fun f => passes f a) := by
  induction fs with
  | nil => simp [allFilters]
  | cons f rest ih =>
    have hf : (callFilter f a).isOk = true := h f (by simp)
    cases hc : callFilter f a with
    | error e => rw [hc] at hf; simp [Except.isOk, Except.toBool] at hf
    | ok b =>
      have hrest : ∀ g ∈ rest, (callFilter g a).isOk = true := by
        intro g hg; exact h g (by simp [hg])
      have hp : passes f a = b := by unfold passes; rw [hc]
      cases b with
      | true => simp [allFilters, hc, ih hrest, hp]
      | false => simp [allFilters, hc, hp]

lemma query_eq_ok (A : List CloseApproach) (fs : List AttributeFilter)
    (h : ∀ a ∈ A, ∀ f ∈ fs, (callFilter f a).isOk = true) :
    query A fs = .ok (A.filter fun a => fs.all fun f => passes f a) := by
  induction A with
  | nil => simp [query]
  | cons a rest ih =>
    have ha : allFilters fs a = .ok (fs.all fun f => passes f a) :=
      allFilters_eq_ok fs a (h a (by simp))
    have hrest : query rest fs = .ok (rest.filter fun a => fs.all fun f => passes f a) :=
      ih (fun x hx f hf => h x (by simp [hx]) f hf)
    cases hb : (fs.all fun f => passes f a) <;>
      simp [query, ha, hrest, hb, List.filter_cons]

lemma query_nil_filters (A : List CloseApproach) : query A [] = .ok A := by
  induction A with
  | nil => simp [query]
  | cons a rest ih => simp [query, allFilters, ih]

lemma mem_optToList (f : AttributeFilter) {β : Type} (o : Option β)
    (mk : β → AttributeFilter) :
    f ∈ optToList o mk ↔ ∃ x, o = some x ∧ f = mk x := by
  cases o <;> simp [optToList]

lemma length_optToList {β : Type} (o : Option β) (mk : β → AttributeFilter) :
    (optToList o mk).length = if o.isSome then 1 else 0 := by
  cases o <;> rfl

lemma applyOp_ne_unsupported (op : CmpOp) (v w : AttrValue) :
    applyOp op v w ≠ .error .unsupportedCriterion := by
  cases op <;> cases v <;> cases w <;> simp [applyOp]

lemma create_filters_mem
    (date start_date end_date : Option PyDate)
    (distance_min distance_max velocity_min velocity_max
      diameter_min diameter_max : Option PyFloat)
    (hazardous : Option Bool) (f : AttributeFilter) :
    f ∈ create_filters date start_date end_date distance_min distance_max
        velocity_min velocity_max diameter_min diameter_max hazardous ↔
      ((∃ x, date = some x ∧ f = DateFilter .eq x) ∨
       (∃ x, start_date = some x ∧ f = DateFilter .ge x) ∨
       (∃ x, end_date = some x ∧ f = DateFilter .le x) ∨
       (∃ x, distance_min = some x ∧ f = DistanceFilter .ge x) ∨
       (∃ x, distance_max = some x ∧ f = DistanceFilter .le x) ∨
       (∃ x, velocity_min = some x ∧ f = VelocityFilter .ge x) ∨
       (∃ x, velocity_max = some x ∧ f = VelocityFilter .le x) ∨
       (∃ x, diameter_min = some x ∧ f = DiameterFilter .ge x) ∨
       (∃ x, diameter_max = some x ∧ f = DiameterFilter .le x) ∨
       (∃ x, hazardous = some x ∧ f = HazardousFilter .eq x)) := by
  simp [create_filters, List.mem_append, mem_optToList]

lemma create_filters_callOk
    (date start_date end_date : Option PyDate)
    (distance_min distance_max velocity_min velocity_max
      diameter_min diameter_max : Option PyFloat)
    (hazardous : Option Bool) (f : AttributeFilter) (a : CloseApproach)
    (hmem : f ∈ create_filters date start_date end_date distance_min
      distance_max velocity_min velocity_max diameter_min diameter_max
      hazardous) :
    (callFilter f a).isOk = true := by
  rw [create_filters_mem] at hmem
  rcases hmem with ⟨x, _, rfl⟩ | ⟨x, _, rfl⟩ | ⟨x, _, rfl⟩ | ⟨x, _, rfl⟩ |
    ⟨x, _, rfl⟩ | ⟨x, _, rfl⟩ | ⟨x, _, rfl⟩ | ⟨x, _, rfl⟩ | ⟨x, _, rfl⟩ |
    ⟨x, _, rfl⟩ <;>
    simp [callFilter, DateFilter, DistanceFilter, VelocityFilter,
      DiameterFilter, HazardousFilter, FilterKind.get, applyOp, Except.isOk,
      Except.toBool]

lemma create_filters_hazardous_split
    (date start_date end_date : Option PyDate)
    (distance_min distance_max velocity_min velocity_max
      diameter_min diameter_max : Option PyFloat) (b : Bool) :
    create_filters date start_date end_date distance_min distance_max
        velocity_min velocity_max diameter_min diameter_max (some b) =
      create_filters date start_date end_date distance_min distance_max
        velocity_min velocity_max diameter_min diameter_max none ++
        [HazardousFilter .eq b] := by
  simp [create_filters, optToList, List.append_assoc]

lemma passes_hazardous (b : Bool) (a : CloseApproach) :
    passes (HazardousFilter .eq b) a = (a.neo.hazardous == b) := rfl

end FilterLemmas

/-- C1: for every approach collection `A` and filter collection `F` whose
evaluations do not raise, `query(A, F)` yields exactly those approaches of
`A` for which every predicate in `F` evaluates true, as a `List.filter` of
`A` (hence in `A`'s original order, with no omissions and no duplicates);
and `query(A, [])` yields exactly `A`. -/
theorem c1_query_exact (A : List CloseApproach) (fs : List AttributeFilter)
    (h : ∀ a ∈ A, ∀ f ∈ fs, (callFilter f a).isOk = true) :
    query A fs = .ok (A.filter fun a => fs.all fun f => passes f a) ∧
    (∀ a ∈ A, ((fs.all fun f => passes f a) = true ↔
      ∀ f ∈ fs, callFilter f a = .ok true)) ∧
    query A [] = .ok A := by
  refine ⟨query_eq_ok A fs h, ?_, query_nil_filters A⟩
  intro a ha
  rw [List.all_eq_true]
  constructor
  · intro hall f hf
    exact (passes_iff f a (h a ha f hf)).mp (hall f hf)
  · intro hall f hf
    exact (passes_iff f a (h a ha f hf)).mpr (hall f hf)

/-- Witness for C1 at a concrete collection: two approaches, one distance
filter. -/
theorem c1_query_exact_witness :
    (∀ a ∈ [caW1, caW2], ∀ f ∈ [DistanceFilter .le (.num 2)],
      (callFilter f a).isOk = true) ∧
    (query [caW1, caW2] [DistanceFilter .le (.num 2)] =
      .ok ([caW1, caW2].filter fun a =>
        [DistanceFilter .le (.num 2)].all fun f => passes f a) ∧
    (∀ a ∈ [caW1, caW2],
      (([DistanceFilter .le (.num 2)].all fun f => passes f a) = true ↔
        ∀ f ∈ [DistanceFilter .le (.num 2)], callFilter f a = .ok true)) ∧
    query [caW1, caW2] [] = .ok [caW1, caW2]) :=
  ⟨by decide, c1_query_exact [caW1, caW2] [DistanceFilter .le (.num 2)] (by decide)⟩

/-- C2: for every combination of the ten optional criteria, the collection
`create_filters` returns contains a filter exactly for the present criteria
— with the specified comparator and selection strategy: equality for the
exact date and the hazardous flag, greater-or-equal for `start_date` /
`distance_min` / `velocity_min` / `diameter_min`, less-or-equal for
`end_date` / `distance_max` / `velocity_max` / `diameter_max` — and its
length is the number of present criteria, so each present criterion yields
exactly one filter, absent criteria yield none, and nothing else is
returned. -/
theorem c2_create_filters_exact
    (date start_date end_date : Option PyDate)
    (distance_min distance_max velocity_min velocity_max
      diameter_min diameter_max : Option PyFloat)
    (hazardous : Option Bool) :
    (∀ f, f ∈ create_filters date start_date end_date distance_min
        distance_max velocity_min velocity_max diameter_min diameter_max
        hazardous ↔
      ((∃ x, date = some x ∧ f = DateFilter .eq x) ∨
       (∃ x, start_date = some x ∧ f = DateFilter .ge x) ∨
       (∃ x, end_date = some x ∧ f = DateFilter .le x) ∨
       (∃ x, distance_min = some x ∧ f = DistanceFilter .ge x) ∨
       (∃ x, distance_max = some x ∧ f = DistanceFilter .le x) ∨
       (∃ x, velocity_min = some x ∧ f = VelocityFilter .ge x) ∨
       (∃ x, velocity_max = some x ∧ f = VelocityFilter .le x) ∨
       (∃ x, diameter_min = some x ∧ f = DiameterFilter .ge x) ∨
       (∃ x, diameter_max = some x ∧ f = DiameterFilter .le x) ∨
       (∃ x, hazardous = some x ∧ f = HazardousFilter .eq x))) ∧
    (create_filters date start_date end_date distance_min distance_max
        velocity_min velocity_max diameter_min diameter_max
        hazardous).length =
      (if date.isSome then 1 else 0) + (if start_date.isSome then 1 else 0) +
      (if end_date.isSome then 1 else 0) +
      (if distance_min.isSome then 1 else 0) +
      (if distance_max.isSome then 1 else 0) +
      (if velocity_min.isSome then 1 else 0) +
      (if velocity_max.isSome then 1 else 0) +
      (if diameter_min.isSome then 1 else 0) +
      (if diameter_max.isSome then 1 else 0) +
      (if hazardous.isSome then 1 else 0) := by
  constructor
  · intro f
    exact create_filters_mem date start_date end_date distance_min
      distance_max velocity_min velocity_max diameter_min diameter_max
      hazardous f
  · simp only [create_filters, List.length_append, length_optToList]

/-- C6: the builder distinguishes `hazardous=False` from `hazardous=None`.
With all other criteria equal, passing `hazardous=False` adds exactly the
equality filter on the hazard flag, so `query` returns the
`hazardous=None` result restricted to approaches whose NEO hazard flag is
`False`; with `hazardous=None` the returned collection contains no
hazardous filter at all; and with no criteria present every approach
passes. -/
theorem c6_hazardous_tristate
    (date start_date end_date : Option PyDate)
    (distance_min distance_max velocity_min velocity_max
      diameter_min diameter_max : Option PyFloat)
    (A : List CloseApproach) :
    query A (create_filters date start_date end_date distance_min
        distance_max velocity_min velocity_max diameter_min diameter_max
        (some false)) =
      Except.map (List.filter fun a => a.neo.hazardous == false)
        (query A (create_filters date start_date end_date distance_min
          distance_max velocity_min velocity_max diameter_min diameter_max
          none)) ∧
    (∀ f ∈ create_filters date start_date end_date distance_min
        distance_max velocity_min velocity_max diameter_min diameter_max
        none, f.kind ≠ .hazardous) ∧
    query A (create_filters none none none none none none none none none
      none) = .ok A := by
  refine ⟨?_, ?_, ?_⟩
  · rw [create_filters_hazardous_split]
    have hok : ∀ a ∈ A, ∀ f ∈ create_filters date start_date end_date
        distance_min distance_max velocity_min velocity_max diameter_min
        diameter_max none, (callFilter f a).isOk = true := by
      intro a _ f hf
      exact create_filters_callOk _ _ _ _ _ _ _ _ _ _ f a hf
    have hok2 : ∀ a ∈ A, ∀ f ∈ (create_filters date start_date end_date
        distance_min distance_max velocity_min velocity_max diameter_min
        diameter_max none ++ [HazardousFilter .eq false]),
        (callFilter f a).isOk = true := by
      intro a ha f hf
      rcases List.mem_append.mp hf with hf | hf
      · exact hok a ha f hf
      · simp only [List.mem_singleton] at hf
        subst hf
        rfl
    rw [query_eq_ok A _ hok2, query_eq_ok A _ (hok)]
    simp only [Except.map]
    rw [List.filter_filter]
    have hpred : (fun a => (create_filters date start_date end_date
        distance_min distance_max velocity_min velocity_max diameter_min
        diameter_max none ++ [HazardousFilter .eq false]).all
          fun f => passes f a) =
        (fun a => a.neo.hazardous == false &&
          (create_filters date start_date end_date distance_min distance_max
            velocity_min velocity_max diameter_min diameter_max none).all
              fun f => passes f a) := by
      funext a
      simp [List.all_append, passes_hazardous, Bool.and_comm]
    rw [hpred]
  · intro f hf
    rw [create_filters_mem] at hf
    rcases hf with ⟨x, _, rfl⟩ | ⟨x, _, rfl⟩ | ⟨x, _, rfl⟩ | ⟨x, _, rfl⟩ |
      ⟨x, _, rfl⟩ | ⟨x, _, rfl⟩ | ⟨x, _, rfl⟩ | ⟨x, _, rfl⟩ | ⟨x, _, rfl⟩ |
      ⟨x, hx, rfl⟩
    all_goals simp_all [DateFilter, DistanceFilter, VelocityFilter,
      DiameterFilter]
  · have : create_filters none none none none none none none none none
        (none : Option Bool) = [] := rfl
    rw [this]
    exact query_nil_filters A

/-- Witness for C6 at concrete criteria (a `distance_max` bound present) and
a concrete two-approach collection. -/
theorem c6_hazardous_tristate_witness :
    query [caW1, caW2] (create_filters none none none none
        (some (.num 2)) none none none none (some false)) =
      Except.map (List.filter fun a => a.neo.hazardous == false)
        (query [caW1, caW2] (create_filters none none none none
          (some (.num 2)) none none none none none)) ∧
    (∀ f ∈ create_filters none none none none (some (.num 2)) none none
        none none none, f.kind ≠ .hazardous) ∧
    query [caW1, caW2] (create_filters none none none none none none none
      none none none) = .ok [caW1, caW2] :=
  c6_hazardous_tristate none none none none (some (.num 2)) none none none
    none [caW1, caW2]

/-- C7: the date-exact filter compares only the calendar-date portion of
the approach timestamp: whenever the timestamp's date portion is `D`, the
filter built from criterion `date = D` evaluates true, whatever the
time-of-day component is. -/
theorem c7_date_portion (D : PyDate) (a : CloseApproach)
    (h : a.time.date = D) :
    callFilter (DateFilter .eq D) a = .ok true := by
  simp [callFilter, DateFilter, FilterKind.get, applyOp, h]

/-- Witness for C7: timestamp 2020-01-01T12:00:00 (43200 s past midnight)
against criterion date 2020-01-01. -/
theorem c7_date_portion_witness :
    caW1.time.date = (⟨2020, 1, 1⟩ : PyDate) ∧
    callFilter (DateFilter .eq ⟨2020, 1, 1⟩) caW1 = .ok true :=
  ⟨rfl, c7_date_portion ⟨2020, 1, 1⟩ caW1 rfl⟩

/-- C8: a diameter filter with any numeric bound comparator (`>=` for a
`diameter_min` criterion, `<=` for a `diameter_max` criterion) evaluates to
`false` — raising no error — on every approach whose NEO diameter is
unknown (the NaN sentinel). -/
theorem c8_unknown_diameter (a : CloseApproach) (bound : PyFloat)
    (op : CmpOp) (hnan : a.neo.diameter = .nan)
    (hop : op = .ge ∨ op = .le) :
    callFilter (DiameterFilter op bound) a = .ok false := by
  rcases hop with rfl | rfl <;> cases bound <;>
    simp [callFilter, DiameterFilter, FilterKind.get, applyOp, hnan,
      PyFloat.ble]

/-- Witness for C8: a `diameter_min = 0.5` filter on an approach whose NEO
diameter is unknown. -/
theorem c8_unknown_diameter_witness :
    caW3.neo.diameter = .nan ∧ (CmpOp.ge = CmpOp.ge ∨ CmpOp.ge = CmpOp.le) ∧
    callFilter (DiameterFilter .ge (.num (1/2))) caW3 = .ok false :=
  ⟨rfl, Or.inl rfl,
    c8_unknown_diameter caW3 (.num (1/2)) .ge rfl (Or.inl rfl)⟩

/-- C9: evaluating a filter raises `UnsupportedCriterionError` exactly when
its selection strategy is the abstract base one; the error propagates
through `query` to the caller; and every filter `create_filters` returns
evaluates without raising, for any arguments and any approach. -/
theorem c9_unsupported_criterion :
    (∀ (f : AttributeFilter) (a : CloseApproach),
      callFilter f a = .error .unsupportedCriterion ↔ f.kind = .base) ∧
    (∀ (op : CmpOp) (v : AttrValue) (a : CloseApproach)
      (A : List CloseApproach),
      query (a :: A) [⟨.base, op, v⟩] = .error .unsupportedCriterion) ∧
    (∀ (date start_date end_date : Option PyDate)
      (distance_min distance_max velocity_min velocity_max
        diameter_min diameter_max : Option PyFloat)
      (hazardous : Option Bool) (f : AttributeFilter) (a : CloseApproach),
      f ∈ create_filters date start_date end_date distance_min distance_max
        velocity_min velocity_max diameter_min diameter_max hazardous →
      (callFilter f a).isOk = true) := by
  refine ⟨?_, ?_, ?_⟩
  · intro f a
    obtain ⟨k, op, v⟩ := f
    cases k
    case base => simp [callFilter, FilterKind.get]
    all_goals
      simp only [callFilter, FilterKind.get]
      exact ⟨fun h => absurd h (applyOp_ne_unsupported _ _ _),
        fun h => by cases h⟩
  · intro op v a A
    simp [query, allFilters, callFilter, FilterKind.get]
  · intro date start_date end_date distance_min distance_max velocity_min
      velocity_max diameter_min diameter_max hazardous f a hmem
    exact create_filters_callOk _ _ _ _ _ _ _ _ _ _ f a hmem

/-- Witness for C9: the base filter raises on a concrete approach, the
error propagates through a concrete query, and a concrete built filter
evaluates without raising. -/
theorem c9_unsupported_criterion_witness :
    (callFilter ⟨.base, .eq, .vBool true⟩ caW1 =
        .error .unsupportedCriterion ↔
      (⟨.base, .eq, .vBool true⟩ : AttributeFilter).kind = .base) ∧
    query [caW1] [⟨.base, .eq, .vBool true⟩] =
      .error .unsupportedCriterion ∧
    (callFilter (HazardousFilter .eq false) caW1).isOk = true :=
  ⟨c9_unsupported_criterion.1 ⟨.base, .eq, .vBool true⟩ caW1,
    c9_unsupported_criterion.2.1 .eq (.vBool true) caW1 [],
    c9_unsupported_criterion.2.2 none none none none none none none none
      none (some false) (HazardousFilter .eq false) caW1 (by decide)⟩

section LimitLemmas

variable {α : Type}

lemma genStep_emit (next : GenSt → Option α × GenSt) (out : List α)
    (st : GenSt) (x : α) (st' : GenSt) (h : next st = (some x, st')) :
    genStep next (out, st) = (out ++ [x], st') := by
  simp [genStep, h]

lemma genStep_skip (next : GenSt → Option α × GenSt) (out : List α)
    (st st' : GenSt) (h : next st = (none, st')) :
    genStep next (out, st) = (out, st') := by
  simp [genStep, h]

lemma iterNext_dead (s : Nat → Option α) (st : GenSt) (h : st.dead = true) :
    iterNext s st = (none, st) := by
  simp [iterNext, h]

lemma iterNext_stop (s : Nat → Option α) (st : GenSt) (h : st.dead = false)
    (hx : s st.idx = none) :
    iterNext s st = (none, { st with dead := true }) := by
  simp [iterNext, h, hx]

lemma iterNext_pull (s : Nat → Option α) (st : GenSt) (x : α)
    (h : st.dead = false) (hx : s st.idx = some x) :
    iterNext s st = (some x, { st with idx := st.idx + 1 }) := by
  simp [iterNext, h, hx]

lemma limitNext_none (s : Nat → Option α) (st : GenSt) :
    limitNext s none st = iterNext s st := by
  unfold limitNext iterNext
  cases st.dead <;> cases s st.idx <;> rfl

lemma limitNext_zero (s : Nat → Option α) (st : GenSt) :
    limitNext s (some 0) st = iterNext s st := by
  unfold limitNext iterNext
  cases st.dead <;> cases s st.idx <;> simp

lemma limitNext_dead (s : Nat → Option α) (n : Option Int) (st : GenSt)
    (h : st.dead = true) :
    limitNext s n st = (none, st) := by
  simp [limitNext, h]

lemma limitNext_stop (s : Nat → Option α) (n : Option Int) (st : GenSt)
    (h : st.dead = false) (hx : s st.idx = none) :
    limitNext s n st = (none, { st with dead := true }) := by
  simp [limitNext, h, hx]

lemma limitNext_break (s : Nat → Option α) (k : Int) (st : GenSt) (x : α)
    (h : st.dead = false) (hx : s st.idx = some x) (hk : k ≠ 0)
    (hge : k ≤ (st.idx : Int)) :
    limitNext s (some k) st = (none, ⟨st.idx + 1, true⟩) := by
  simp [limitNext, h, hx, hk, hge]

lemma limitNext_emit (s : Nat → Option α) (k : Int) (st : GenSt) (x : α)
    (h : st.dead = false) (hx : s st.idx = some x) (hk : k ≠ 0)
    (hlt : (st.idx : Int) < k) :
    limitNext s (some k) st = (some x, { st with idx := st.idx + 1 }) := by
  simp [limitNext, h, hx, hk, Int.not_le.mpr hlt]

lemma limitRun_none (s : Nat → Option α) (d : Nat) :
    limitRun s none d = iterRun s d := by
  induction d with
  | zero => rfl
  | succ d ih =>
    rw [limitRun, iterRun, ih]
    unfold genStep
    rw [limitNext_none]

lemma limitRun_zero (s : Nat → Option α) (d : Nat) :
    limitRun s (some 0) d = iterRun s d := by
  induction d with
  | zero => rfl
  | succ d ih =>
    rw [limitRun, iterRun, ih]
    unfold genStep
    rw [limitNext_zero]

lemma sOf_lt (xs : List α) (i : Nat) (h : i < xs.length) :
    sOf xs i = some xs[i] := List.getElem?_eq_getElem h

lemma sOf_ge (xs : List α) (i : Nat) (h : xs.length ≤ i) :
    sOf xs i = none := List.getElem?_eq_none h

lemma iterRun_sOf (xs : List α) (d : Nat) :
    iterRun (sOf xs) d =
      (xs.take d, ⟨min d xs.length, decide (xs.length < d)⟩) := by
  induction d with
  | zero =>
    simp [iterRun, GenSt.start]
  | succ d ih =>
    rw [iterRun, ih]
    rcases Nat.lt_trichotomy d xs.length with hd | hd | hd
    · rw [genStep_emit _ _ _ xs[d] ⟨d + 1, false⟩]
      · have ht : xs.take (d + 1) = xs.take d ++ [xs[d]] := by
          rw [List.take_succ, List.getElem?_eq_getElem hd]
          rfl
        rw [ht]
        have h1 : min (d + 1) xs.length = d + 1 := by omega
        have h2 : decide (xs.length < d + 1) = false := by
          rw [decide_eq_false_iff_not]
          omega
        rw [h1, h2]
      · rw [iterNext_pull (sOf xs) ⟨min d xs.length, decide (xs.length < d)⟩
          xs[d]]
        · have h3 : min d xs.length = d := by omega
          have h4 : decide (xs.length < d) = false := by
            rw [decide_eq_false_iff_not]
            omega
          simp [h3, h4]
        · rw [decide_eq_false_iff_not]
          omega
        · have h3 : min d xs.length = d := by omega
          simp only [h3]
          exact sOf_lt xs d hd
    · rw [genStep_skip _ _ _ ⟨min d xs.length, true⟩]
      · have h1 : xs.take d = xs := List.take_of_length_le (by omega)
        have h2 : xs.take (d + 1) = xs := List.take_of_length_le (by omega)
        have h3 : min d xs.length = min (d + 1) xs.length := by omega
        have h4 : decide (xs.length < d + 1) = true := by
          rw [decide_eq_true_iff]
          omega
        rw [h1, h2, h3, h4]
      · rw [iterNext_stop]
        · rw [decide_eq_false_iff_not]
          omega
        · have h3 : min d xs.length = d := by omega
          simp only [h3]
          exact sOf_ge xs d (by omega)
    · rw [genStep_skip _ _ _ ⟨min d xs.length, decide (xs.length < d)⟩]
      · have h1 : xs.take d = xs := List.take_of_length_le (by omega)
        have h2 : xs.take (d + 1) = xs := List.take_of_length_le (by omega)
        have h3 : min d xs.length = min (d + 1) xs.length := by omega
        have h4 : decide (xs.length < d) = decide (xs.length < d + 1) := by
          rw [decide_eq_true_iff.mpr (by omega), decide_eq_true_iff.mpr (by omega)]
        rw [h1, h2]
        rw [h3, h4]
      · exact iterNext_dead _ _ (decide_eq_true_iff.mpr (by omega))

lemma limitRun_sOf_pos (xs : List α) (N : Nat) (hN : 1 ≤ N) (d : Nat) :
    limitRun (sOf xs) (some (N : Int)) d =
      (xs.take (min d N),
        if d ≤ min N xs.length then (⟨d, false⟩ : GenSt)
        else ⟨min (N + 1) xs.length, true⟩) := by
  have hNz : ((N : Int)) ≠ 0 := by
    simp only [ne_eq, Nat.cast_eq_zero]
    omega
  induction d with
  | zero => simp [limitRun, GenSt.start]
  | succ d ih =>
    rw [limitRun, ih]
    by_cases hB : d ≤ min N xs.length
    · rw [if_pos hB]
      by_cases hA : d + 1 ≤ min N xs.length
      · have hdL : d < xs.length := by omega
        have hdN : ((d : Nat) : Int) < ((N : Nat) : Int) := by
          have h : d < N := by omega
          exact_mod_cast h
        rw [genStep_emit _ _ _ xs[d] ⟨d + 1, false⟩]
        · rw [if_pos hA]
          have ht : xs.take (d + 1) = xs.take d ++ [xs[d]] := by
            rw [List.take_succ, List.getElem?_eq_getElem hdL]
            rfl
          have hm1 : min d N = d := by omega
          have hm2 : min (d + 1) N = d + 1 := by omega
          rw [hm1, hm2, ht]
        · exact limitNext_emit (sOf xs) (N : Int) ⟨d, false⟩ xs[d] rfl
            (sOf_lt xs d hdL) hNz hdN
      · rw [if_neg (by omega)]
        by_cases hL : xs.length ≤ N
        · have hdEq : d = xs.length := by omega
          rw [genStep_skip _ _ _ ⟨d, true⟩]
          · simp only [Prod.mk.injEq, GenSt.mk.injEq]
            refine ⟨?_, by omega, trivial⟩
            rw [List.take_of_length_le (by omega),
              List.take_of_length_le (by omega)]
          · exact limitNext_stop _ _ _ rfl (sOf_ge xs d (by omega))
        · have hdN : d = N := by omega
          have hge : ((N : Nat) : Int) ≤ ((d : Nat) : Int) := by
            have h : N ≤ d := by omega
            exact_mod_cast h
          rw [genStep_skip _ _ _ ⟨d + 1, true⟩]
          · simp only [Prod.mk.injEq, GenSt.mk.injEq]
            refine ⟨?_, by omega, trivial⟩
            have hm1 : min d N = N := by omega
            have hm2 : min (d + 1) N = N := by omega
            rw [hm1, hm2]
          · exact limitNext_break (sOf xs) (N : Int) ⟨d, false⟩ xs[d] rfl
              (sOf_lt xs d (by omega)) hNz hge
    · rw [if_neg hB, if_neg (by omega)]
      rw [genStep_skip _ _ _ ⟨min (N + 1) xs.length, true⟩]
      · simp only [Prod.mk.injEq, GenSt.mk.injEq]
        refine ⟨?_, trivial⟩
        by_cases hL : N ≤ xs.length
        · have hm1 : min d N = N := by omega
          have hm2 : min (d + 1) N = N := by omega
          rw [hm1, hm2]
        · rw [List.take_of_length_le (by omega),
            List.take_of_length_le (by omega)]
      · exact limitNext_dead _ _ _ rfl

lemma limitRun_idx_le (s : Nat → Option α) (N : Nat) (hN : 1 ≤ N) (d : Nat) :
    (limitRun s (some (N : Int)) d).2.idx ≤ N + 1 ∧
      ((limitRun s (some (N : Int)) d).2.dead = false →
        (limitRun s (some (N : Int)) d).2.idx ≤ N) := by
  have hNz : ((N : Int)) ≠ 0 := by
    simp only [ne_eq, Nat.cast_eq_zero]
    omega
  induction d with
  | zero => simp [limitRun, GenSt.start]
  | succ d ih =>
    rw [limitRun]
    set st := (limitRun s (some (N : Int)) d).2 with hst
    obtain ⟨ih1, ih2⟩ := ih
    cases hdead : st.dead with
    | true =>
      rw [genStep_skip _ _ _ st ?hnext]
      case hnext => exact limitNext_dead _ _ _ hdead
      exact ⟨ih1, fun h => absurd h (by rw [hdead]; simp)⟩
    | false =>
      have hidx : st.idx ≤ N := ih2 hdead
      cases hx : s st.idx with
      | none =>
        rw [genStep_skip _ _ _ { st with dead := true } ?hnext]
        case hnext => exact limitNext_stop _ _ _ hdead hx
        exact ⟨by simpa using ih1, fun h => by simp at h⟩
      | some x =>
        by_cases hge : ((N : Nat) : Int) ≤ ((st.idx : Nat) : Int)
        · rw [genStep_skip _ _ _ ⟨st.idx + 1, true⟩ ?hnext]
          case hnext => exact limitNext_break s (N : Int) st x hdead hx hNz hge
          have : N ≤ st.idx := by exact_mod_cast hge
          exact ⟨by simp; omega, fun h => by simp at h⟩
        · rw [genStep_emit _ _ _ x { st with idx := st.idx + 1 } ?hnext]
          case hnext =>
            exact limitNext_emit s (N : Int) st x hdead hx hNz
              (by omega)
          have hlt : st.idx < N := by
            have h2 : ¬(N ≤ st.idx) := fun hc => hge (by exact_mod_cast hc)
            omega
          exact ⟨by simp; omega, fun _ => by simp; omega⟩

lemma limitRun_neg (s : Nat → Option α) (k : Int) (hk : k < 0) (d : Nat) :
    (limitRun s (some k) d).1 = [] ∧ (limitRun s (some k) d).2.idx ≤ 1 ∧
      ((limitRun s (some k) d).2.dead = false →
        (limitRun s (some k) d).2.idx = 0) := by
  have hkz : k ≠ 0 := by omega
  induction d with
  | zero => simp [limitRun, GenSt.start]
  | succ d ih =>
    obtain ⟨ih1, ih2, ih3⟩ := ih
    rw [limitRun]
    cases hdead : (limitRun s (some k) d).2.dead with
    | true =>
      rw [genStep_skip _ _ _ _ (limitNext_dead _ _ _ hdead)]
      exact ⟨ih1, ih2, fun h => absurd (hdead ▸ h) (by simp)⟩
    | false =>
      have hidx : (limitRun s (some k) d).2.idx = 0 := ih3 hdead
      cases hx : s (limitRun s (some k) d).2.idx with
      | none =>
        rw [genStep_skip _ _ _ _ (limitNext_stop _ _ _ hdead hx)]
        exact ⟨ih1, by simp [hidx], fun h => by simp at h⟩
      | some x =>
        have hge : k ≤ ((limitRun s (some k) d).2.idx : Int) := by
          rw [hidx]
          omega
        rw [genStep_skip _ _ _ _ (limitNext_break s k _ x hdead hx hkz hge)]
        exact ⟨ih1, by simp [hidx], fun h => by simp at h⟩

end LimitLemmas

/-- C3: on a finite source `S` with any `N ≥ 0`, running `limit(S, N)` to
exhaustion (any consumer demand covering both `N` and the length of `S`)
emits the first `min(N, len(S))` items of `S` in order — except that `N = 0`
emits all of `S`. -/
theorem c3_limit_min {α : Type} (xs : List α) (N d : Nat)
    (hlen : xs.length ≤ d) (hNd : N ≤ d) :
    (limitRun (sOf xs) (some (N : Int)) d).1 =
      (if N = 0 then xs else xs.take N) ∧
    (limitRun (sOf xs) (some (N : Int)) d).1.length =
      (if N = 0 then xs.length else min N xs.length) := by
  rcases Nat.eq_zero_or_pos N with hz | hpos
  · subst hz
    rw [show ((0 : Nat) : Int) = 0 from rfl, limitRun_zero, iterRun_sOf]
    simp [List.take_of_length_le hlen]
  · have h1 : (limitRun (sOf xs) (some (N : Int)) d).1 = xs.take (min d N) := by
      rw [limitRun_sOf_pos xs N hpos d]
    have hm : min d N = N := by omega
    rw [h1, hm, if_neg (by omega), if_neg (by omega)]
    exact ⟨rfl, by simp [List.length_take]⟩

/-- Witness for C3: `limit([10, 20, 30], 2)` drained with demand 5 yields
`[10, 20]`. -/
theorem c3_limit_min_witness :
    ([10, 20, 30] : List Nat).length ≤ 5 ∧ 2 ≤ 5 ∧
    ((limitRun (sOf ([10, 20, 30] : List Nat)) (some ((2 : Nat) : Int)) 5).1 =
      (if (2 : Nat) = 0 then [10, 20, 30] else List.take 2 [10, 20, 30]) ∧
    (limitRun (sOf ([10, 20, 30] : List Nat)) (some ((2 : Nat) : Int)) 5).1.length =
      (if (2 : Nat) = 0 then ([10, 20, 30] : List Nat).length
        else min 2 ([10, 20, 30] : List Nat).length)) :=
  ⟨by decide, by decide, c3_limit_min [10, 20, 30] 2 5 (by decide) (by decide)⟩

/-- C4: `limit(S, None)` is the identity pass-through: for every source
(finite or infinite) and every consumer demand, it has emitted exactly the
items iterating `S` directly would have emitted, in the same order, and has
pulled exactly as much of `S` as direct iteration would have pulled. -/
theorem c4_limit_none_identity {α : Type} (s : Nat → Option α) (d : Nat) :
    limitRun s none d = iterRun s d :=
  limitRun_none s d

/-- C5 counterexample: with `S = [10, 20]` and `N = 1`, demand 1 already
emits the single permitted item having pulled one item of `S`, yet demand 2
(the consumer's next request after the N-th emission) pulls a second item
from `S` before the generator stops — the loop obtains the item at index 1,
only then tests `i >= n` and breaks. So it is false that once `limit(S, N)`
has emitted its N-th item it performs no further pulls, and false that a
consumer that drains `limit(S, N)` costs exactly N pulls. -/
theorem c5_no_extra_pull_counterexample :
    (limitRun (sOf [(10 : Nat), 20]) (some 1) 1).1.length = 1 ∧
    (limitRun (sOf [(10 : Nat), 20]) (some 1) 1).2.idx = 1 ∧
    (limitRun (sOf [(10 : Nat), 20]) (some 1) 2).1.length = 1 ∧
    (limitRun (sOf [(10 : Nat), 20]) (some 1) 2).2.idx = 2 ∧
    ¬((limitRun (sOf [(10 : Nat), 20]) (some 1) 2).2.idx = 1) := by
  decide

/-- C5 (amended): for every `N ≥ 1`, `limit(S, N)` pulls at most `N + 1`
items from any source whatever the demand — bounded independently of the
source, so it terminates on an infinite source once `N` items have been
emitted; producing the first `N` items (demand `N`) emits the `N`-item
prefix and consumes exactly `N` items; and after the `N`-th item has been
emitted, exactly one further pull occurs (total `N + 1`) when the consumer
keeps requesting on a source longer than `N`. -/
theorem c5_limit_pulls {α : Type} (N d : Nat) (hN : 1 ≤ N) :
    (∀ s : Nat → Option α, (limitRun s (some (N : Int)) d).2.idx ≤ N + 1) ∧
    (∀ xs : List α, N ≤ xs.length →
      (limitRun (sOf xs) (some (N : Int)) N).1 = xs.take N ∧
      (limitRun (sOf xs) (some (N : Int)) N).2.idx = N) ∧
    (∀ xs : List α, N + 1 ≤ xs.length → N + 1 ≤ d →
      (limitRun (sOf xs) (some (N : Int)) d).2.idx = N + 1) := by
  refine ⟨fun s => (limitRun_idx_le s N hN d).1, ?_, ?_⟩
  · intro xs hlen
    rw [limitRun_sOf_pos xs N hN N]
    refine ⟨by rw [min_self], ?_⟩
    rw [if_pos (by omega)]
  · intro xs hlen hd
    rw [limitRun_sOf_pos xs N hN d]
    rw [if_neg (by omega)]
    simp only []
    omega

/-- Witness for C5 (amended) at `N = 1`, `d = 2`, over `Nat` sources. -/
theorem c5_limit_pulls_witness :
    1 ≤ 1 ∧
    ((∀ s : Nat → Option Nat,
        (limitRun s (some ((1 : Nat) : Int)) 2).2.idx ≤ 1 + 1) ∧
    (∀ xs : List Nat, 1 ≤ xs.length →
      (limitRun (sOf xs) (some ((1 : Nat) : Int)) 1).1 = xs.take 1 ∧
      (limitRun (sOf xs) (some ((1 : Nat) : Int)) 1).2.idx = 1) ∧
    (∀ xs : List Nat, 1 + 1 ≤ xs.length → 1 + 1 ≤ 2 →
      (limitRun (sOf xs) (some ((1 : Nat) : Int)) 2).2.idx = 1 + 1)) :=
  ⟨le_refl 1, c5_limit_pulls 1 2 (le_refl 1)⟩

/-- C10: for every source and every negative `n`, `limit(S, n)` emits
nothing and pulls at most one item from the source, whatever the consumer
demand: the first index comparison `i >= n` is already true at `i = 0`, but
the loop has pulled one item before testing it. -/
theorem c10_limit_negative {α : Type} (s : Nat → Option α) (k : Int)
    (hk : k < 0) (d : Nat) :
    (limitRun s (some k) d).1 = [] ∧ (limitRun s (some k) d).2.idx ≤ 1 :=
  ⟨(limitRun_neg s k hk d).1, (limitRun_neg s k hk d).2.1⟩

/-- Witness for C10: `limit([10, 20], -1)` with demand 4. -/
theorem c10_limit_negative_witness :
    (-1 : Int) < 0 ∧
    ((limitRun (sOf [(10 : Nat), 20]) (some (-1)) 4).1 = [] ∧
      (limitRun (sOf [(10 : Nat), 20]) (some (-1)) 4).2.idx ≤ 1) :=
  ⟨by decide, c10_limit_negative (sOf [(10 : Nat), 20]) (-1) (by decide) 4⟩
